import Mathlib

/-!
# Chirpy: a verification development of `main.go`

A shallow embedding of the request handlers of `main.go` and of the library
functions they call (`strings.Split`, `strings.Join`, `strings.ToLower`,
`encoding/json` decoding into `InputStruct`, `atomic.Int32`).

Conventions of the embedding.

* A Go string that holds valid UTF-8 is a Lean `String` (a list of Unicode
  scalar values). Every string the handlers see is of that kind: the bodies
  come out of `encoding/json`, which replaces invalid bytes by U+FFFD, and
  the remaining strings are literals of the program.
* Go's builtin `len` counts the bytes of the UTF-8 encoding.
* The case table of package `unicode` for the runes above U+007F and the
  case-folding table used by `encoding/json` for object keys are library
  data; they are parameters of the embedding (`Char → Char`).
-/

set_option maxRecDepth 8192

namespace Chirpy

/-! ## Strings -/

/-- Go's builtin `len` applied to a string: the number of bytes of its UTF-8
encoding. -/
def len (s : String) : Nat := s.utf8ByteSize

/-- The number of runes (code points) of a string, Go's
`utf8.RuneCountInString`; the program never calls it, it is here to compare
with `len`. -/
def runeCount (s : String) : Nat := s.data.length

namespace unicode

/-- Go's `unicode.ToLower`: the ASCII range is handled by arithmetic on the
letters `A`..`Z`; every other rune is looked up in the case table `tbl`. -/
def ToLower (tbl : Char → Char) (r : Char) : Char :=
  if r.toNat ≤ 0x7F then
    if 'A'.toNat ≤ r.toNat ∧ r.toNat ≤ 'Z'.toNat then Char.ofNat (r.toNat + ('a'.toNat - 'A'.toNat))
    else r
  else tbl r

end unicode

namespace strings

/-- The tokens of a rune list between consecutive occurrences of `sep`:
`k` separators give `k + 1` tokens, possibly empty. -/
def splitChars (sep : Char) : List Char → List (List Char)
  | [] => [[]]
  | c :: cs =>
    if c = sep then [] :: splitChars sep cs
    else
      match splitChars sep cs with
      | [] => [[c]]
      | t :: ts => (c :: t) :: ts

/-- The tokens glued together with `sep` between neighbours. -/
def joinChars (sep : Char) : List (List Char) → List Char
  | [] => []
  | [t] => t
  | t :: u :: ts => t ++ sep :: joinChars sep (u :: ts)

/-- Go's `strings.Split(s, sep)` for a separator that is a single one-byte
character (the program only splits on `" "`): the substrings between the
separators, `Count(s, sep) + 1` of them. A byte below 0x80 never occurs inside
the encoding of another rune, so cutting the rune list at `sep` is cutting the
bytes at `sep`. -/
def Split (s : String) (sep : Char) : List String :=
  (splitChars sep s.data).map String.mk

/-- Go's `strings.Join(elems, sep)` for a single-character separator. -/
def Join (elems : List String) (sep : Char) : String :=
  String.mk (joinChars sep (elems.map String.data))

/-- Go's `strings.Map(mapping, s)` on valid UTF-8 with a mapping that never
drops a rune: the mapping applied rune by rune. -/
def Map (mapping : Char → Char) (s : String) : String :=
  String.mk (s.data.map mapping)

/-- Go's `strings.ToLower`: a string of ASCII bytes only is returned as is
when it has no upper-case letter and is lowered byte by byte otherwise; any
other string goes through `Map(unicode.ToLower, s)`. -/
def ToLower (tbl : Char → Char) (s : String) : String :=
  let isASCII := s.data.all fun c => decide (c.toNat < 0x80)
  let hasUpper := s.data.any fun c => decide ('A'.toNat ≤ c.toNat ∧ c.toNat ≤ 'Z'.toNat)
  if isASCII then
    if !hasUpper then s
    else String.mk (s.data.map fun c =>
      if 'A'.toNat ≤ c.toNat ∧ c.toNat ≤ 'Z'.toNat then Char.ofNat (c.toNat + ('a'.toNat - 'A'.toNat))
      else c)
  else Map (unicode.ToLower tbl) s

end strings

/-! ## `checkChirp` -/

/-- The array `illegalWords` of `checkChirp`. -/
def illegalWords : List String := ["kerfuffle", "sharbert", "fornax"]

/-- The inner loop of `checkChirp` for one cell of `newChirpArr`: the cell
starts as `word` and is overwritten by `"****"` at every illegal word equal to
`strings.ToLower(word)`. -/
def censorCell (tbl : Char → Char) (word : String) : String :=
  illegalWords.foldl
    (fun cell illWord => if strings.ToLower tbl word = illWord then "****" else cell) word

/-- The function `checkChirp` of `main.go`: split on `" "`, run the inner loop on
every cell, join with `" "`. -/
def checkChirp (tbl : Char → Char) (chirp : String) : String :=
  let newChirpArr := strings.Split chirp ' '
  let newChirpArr := newChirpArr.map (censorCell tbl)
  strings.Join newChirpArr ' '

/-- A sample of the Unicode case table: KELVIN SIGN (U+212A) lowers to `k`,
LATIN CAPITAL LETTER I WITH DOT ABOVE (U+0130) to `i`, every other rune to
itself. -/
def sampleTable : Char → Char := fun r =>
  if r = '\u212A' then 'k' else if r = '\u0130' then 'i' else r

/-! ## JSON decoding into `InputStruct` -/

/-- A JSON value as the scanner of `encoding/json` delimits it; a string value
and the key of a member are held unquoted, as the decoder stores them. -/
inductive JSONValue where
  | null
  | bool (b : Bool)
  | number (literal : String)
  | string (s : String)
  | array (elems : List JSONValue)
  | object (members : List (String × JSONValue))

/-- The struct `InputStruct` of `main.go`. -/
structure InputStruct where
  Body : String
deriving DecidableEq, Repr

/-- The struct `OutputStruct` of `main.go`. -/
structure OutputStruct where
  Cleaned_body : String
deriving DecidableEq, Repr

/-- The library data the handlers depend on: `lower` is the case table of
`unicode.ToLower` above U+007F, `fold` sends a rune above U+007F to the least
rune of its simple case-folding orbit (`foldRune` of `encoding/json`). -/
structure UnicodeData where
  lower : Char → Char
  fold : Char → Char

namespace json

/-- The errors of `Decoder.Decode`: the input does not start with a
well-formed JSON value, the value nests arrays and objects deeper than the
scanner allows (the `SyntaxError` "exceeded max depth"), or a JSON value does
not fit the Go type it is decoded into (`UnmarshalTypeError`, with the JSON
kind of the value). -/
inductive DecodeError where
  | malformed
  | exceededMaxDepth
  | unmarshalType (value : String)
deriving DecidableEq, Repr

/-- The constant `maxNestingDepth` of the scanner of `encoding/json`. -/
def maxNestingDepth : Nat := 10000

mutual

/-- The largest number of arrays and objects open at once while the scanner
reads a value: the height its `parseState` stack reaches. -/
def nesting : JSONValue → Nat
  | JSONValue.array elems => 1 + nestingElems elems
  | JSONValue.object members => 1 + nestingMembers members
  | _ => 0

/-- The deepest nesting among the elements of an array. -/
def nestingElems : List JSONValue → Nat
  | [] => 0
  | v :: vs => max (nesting v) (nestingElems vs)

/-- The deepest nesting among the values of the members of an object. -/
def nestingMembers : List (String × JSONValue) → Nat
  | [] => 0
  | m :: ms => max (nesting m.2) (nestingMembers ms)

end

/-- The function `foldName` of `encoding/json`: ASCII letters are upper-cased,
every other rune is replaced by the least rune of its folding orbit. Two keys
match when their folded names are equal. -/
def foldName (fold : Char → Char) (name : String) : String :=
  String.mk (name.data.map fun c =>
    if c.toNat < 0x80 then
      if 'a'.toNat ≤ c.toNat ∧ c.toNat ≤ 'z'.toNat then Char.ofNat (c.toNat - ('a'.toNat - 'A'.toNat))
      else c
    else fold c)

/-- The method `saveError` of the decoder: only the first error is kept. -/
def saveError (saved : Option DecodeError) (err : DecodeError) : Option DecodeError :=
  match saved with
  | none => some err
  | some e => some e

/-- One member of a JSON object decoded into an `InputStruct`: a key that is
`body`, exactly or after folding, selects the field `Body`; a string value is
stored, `null` leaves the field as it is, a value of another kind is skipped
and recorded as an `UnmarshalTypeError`. A member with another key is ignored. -/
def decodeMember (fold : Char → Char) (st : InputStruct × Option DecodeError)
    (m : String × JSONValue) : InputStruct × Option DecodeError :=
  if m.1 = "body" ∨ foldName fold m.1 = foldName fold "body" then
    match m.2 with
    | JSONValue.string s => ({ Body := s }, st.2)
    | JSONValue.null => st
    | JSONValue.bool _ => (st.1, saveError st.2 (DecodeError.unmarshalType "bool"))
    | JSONValue.number _ => (st.1, saveError st.2 (DecodeError.unmarshalType "number"))
    | JSONValue.array _ => (st.1, saveError st.2 (DecodeError.unmarshalType "array"))
    | JSONValue.object _ => (st.1, saveError st.2 (DecodeError.unmarshalType "object"))
  else st

/-- The decoding of a scanned JSON value into a zero `InputStruct` (the method
`value` of the decoder on a pointer to the struct): an object is decoded
member by member, `null` leaves the struct untouched, a value of any other
kind is an `UnmarshalTypeError`; the first saved error, if any, is returned. -/
def unmarshal (fold : Char → Char) (v : JSONValue) : Except DecodeError InputStruct :=
  match v with
  | JSONValue.null => Except.ok { Body := "" }
  | JSONValue.object members =>
    match members.foldl (decodeMember fold) ({ Body := "" }, none) with
    | (body, none) => Except.ok body
    | (_, some err) => Except.error err
  | JSONValue.bool _ => Except.error (DecodeError.unmarshalType "bool")
  | JSONValue.number _ => Except.error (DecodeError.unmarshalType "number")
  | JSONValue.string _ => Except.error (DecodeError.unmarshalType "string")
  | JSONValue.array _ => Except.error (DecodeError.unmarshalType "array")

/-- The call `json.NewDecoder(r.Body).Decode(&body)` on a zero `InputStruct`.
The argument is the first JSON value of the request body, `none` when the body
cannot be read or does not start with a well-formed JSON value (an empty body
included). The scanner reads the whole value first and fails when it nests
deeper than `maxNestingDepth`; the value is decoded only after that. -/
def Decode (fold : Char → Char) (input : Option JSONValue) : Except DecodeError InputStruct :=
  match input with
  | none => Except.error DecodeError.malformed
  | some v =>
    if maxNestingDepth < nesting v then Except.error DecodeError.exceededMaxDepth
    else unmarshal fold v

/-- The call `json.Marshal(payload)` on an `OutputStruct`: a struct with one
string field always marshals; the encoded bytes are represented by the value
they encode. -/
def Marshal (payload : OutputStruct) : Except String OutputStruct :=
  Except.ok payload

end json

/-! ## Requests, responses and the hit counter -/

/-- The part of `http.Request` the handlers read: the method and the body, the
latter as the JSON decoder sees it (see `json.Decode`). -/
structure Request where
  Method : String
  Body : Option JSONValue

/-- What a handler writes on the `http.ResponseWriter` after the headers. -/
inductive Written where
  | nothing
  | text (s : String)
  | marshalled (payload : OutputStruct)
deriving DecidableEq, Repr

/-- What a handler leaves on the `http.ResponseWriter`: the status code given
to `WriteHeader`, the `Content-Type` header if it was set, the bytes written. -/
structure Response where
  StatusCode : Nat
  ContentType : Option String
  Body : Written
deriving DecidableEq, Repr

namespace http

def MethodGet : String := "GET"

def MethodPost : String := "POST"

def StatusOK : Nat := 200

def StatusBadRequest : Nat := 400

def StatusMethodNotAllowed : Nat := 405

def StatusInternalServerError : Nat := 500

end http

/-- The two's complement wrap of an integer to the range of Go's `int32`. -/
def wrapInt32 (x : Int) : Int := (x + 2 ^ 31) % 2 ^ 32 - 2 ^ 31

/-- The struct `apiConfig` of `main.go`; `fileserverHits` is an
`atomic.Int32`, held as its integer value. -/
structure apiConfig where
  fileserverHits : Int
deriving DecidableEq, Repr

namespace atomic

/-- The method `Add` of `atomic.Int32`: addition that wraps around. -/
def Add (v : Int) (delta : Int) : Int := wrapInt32 (v + delta)

/-- The method `Store` of `atomic.Int32`. -/
def Store (_v : Int) (val : Int) : Int := val

/-- The method `Load` of `atomic.Int32`. -/
def Load (v : Int) : Int := v

end atomic

/-- An `http.Handler` of the program: it reads the request and the
configuration and leaves a response and a configuration. -/
abbrev Handler := Request → apiConfig → Response × apiConfig

/-- The branch `w.WriteHeader(http.StatusMethodNotAllowed); return` that opens
every handler: the status code alone, no header, nothing written. -/
def methodNotAllowed : Response :=
  { StatusCode := http.StatusMethodNotAllowed, ContentType := none, Body := Written.nothing }

/-- The function `respondWithError` of `main.go`. The message is used as a
format string without arguments; the messages of the program have no `%` in
them, so what is written is the message. -/
def respondWithError (code : Nat) (msg : String) : Response :=
  { StatusCode := code, ContentType := some "text/plain; charset=utf-8", Body := Written.text msg }

/-- The function `respondWithJSON` of `main.go` on an `OutputStruct`. -/
def respondWithJSON (code : Nat) (payload : OutputStruct) : Response :=
  match json.Marshal payload with
  | Except.error err =>
    respondWithError http.StatusInternalServerError ("Error marshalling JSON: " ++ err)
  | Except.ok data =>
    { StatusCode := code, ContentType := some "application/json", Body := Written.marshalled data }

/-- The function `readinessHandler` of `main.go`. -/
def readinessHandler (r : Request) : Response :=
  if r.Method ≠ http.MethodGet then methodNotAllowed
  else { StatusCode := 200, ContentType := some "text/plain; charset=utf-8", Body := Written.text "OK" }

/-- The method `middlewareMetricsInc` of `main.go`: one hit is added, then the
wrapped handler runs. -/
def middlewareMetricsInc (next : Handler) : Handler := fun r cfg =>
  next r { cfg with fileserverHits := atomic.Add cfg.fileserverHits 1 }

/-- The handlers `main` wraps in `middlewareMetricsInc` (`http.ServeFile` and
`http.FileServer`): they serve files and do not hold the configuration. -/
def staticHandler (serve : Request → Response) : Handler := fun r cfg => (serve r, cfg)

/-- The method `AddHitHandler` of `main.go`. -/
def AddHitHandler : Handler := fun r cfg =>
  if r.Method ≠ http.MethodGet then (methodNotAllowed, cfg)
  else
    ({ StatusCode := 200, ContentType := some "text/plain; charset=utf-8",
       Body := Written.text ("Hits: " ++ toString (atomic.Load cfg.fileserverHits)) }, cfg)

/-- The method `ResetHitHandler` of `main.go`. -/
def ResetHitHandler : Handler := fun r cfg =>
  if r.Method ≠ http.MethodPost then (methodNotAllowed, cfg)
  else
    let cfg := { cfg with fileserverHits := atomic.Store cfg.fileserverHits 0 }
    ({ StatusCode := 200, ContentType := some "text/plain; charset=utf-8",
       Body := Written.text ("Hits: " ++ toString (atomic.Load cfg.fileserverHits)) }, cfg)

/-- The function `chirpy_visit` of `main.go`. -/
def chirpy_visit (hits : Int) : String :=
  "<html>\n  <body>\n    <h1>Welcome, Chirpy Admin</h1>\n    <p>Chirpy has been visited "
    ++ toString hits ++ " times!</p>\n  </body>\n</html>"

/-- The method `AddAdminHitHandler` of `main.go`. -/
def AddAdminHitHandler : Handler := fun r cfg =>
  if r.Method ≠ http.MethodGet then (methodNotAllowed, cfg)
  else
    ({ StatusCode := 200, ContentType := some "text/plain; charset=utf-8",
       Body := Written.text (chirpy_visit (atomic.Load cfg.fileserverHits)) }, cfg)

/-- The method `AdminResetHandler` of `main.go`. -/
def AdminResetHandler : Handler := fun r cfg =>
  if r.Method ≠ http.MethodPost then (methodNotAllowed, cfg)
  else
    let cfg := { cfg with fileserverHits := atomic.Store cfg.fileserverHits 0 }
    ({ StatusCode := 200, ContentType := some "text/plain; charset=utf-8",
       Body := Written.text (chirpy_visit (atomic.Load cfg.fileserverHits)) }, cfg)

/-- The method `ValidateChirp` of `main.go`. -/
def ValidateChirp (u : UnicodeData) : Handler := fun r cfg =>
  if r.Method ≠ http.MethodPost then (methodNotAllowed, cfg)
  else
    match json.Decode u.fold r.Body with
    | Except.error _ => (respondWithError http.StatusBadRequest "Something went wrong", cfg)
    | Except.ok body =>
      if len body.Body > 140 then
        (respondWithError http.StatusBadRequest "Chirp is too long", cfg)
      else
        let checkedChirp := checkChirp u.lower body.Body
        let respBody : OutputStruct := { Cleaned_body := checkedChirp }
        (respondWithJSON http.StatusOK respBody, cfg)

/-- The configuration after a handler has served the requests of a list one
after another. -/
def serveAll (h : Handler) (rs : List Request) (cfg : apiConfig) : apiConfig :=
  rs.foldl (fun c r => (h r c).2) cfg

/-- A sample of the library data: `sampleTable` as the case table and a
folding table that sends KELVIN SIGN (U+212A) to `K`, LATIN SMALL LETTER LONG S
(U+017F) to `S` and every other rune to itself. -/
def sampleData : UnicodeData :=
  { lower := sampleTable,
    fold := fun r => if r = '\u212A' then 'K' else if r = '\u017F' then 'S' else r }

/-- The JSON value `null` inside `n` arrays: the text of `n` opening brackets,
`null` and `n` closing brackets. -/
def nestedNull : Nat → JSONValue
  | 0 => JSONValue.null
  | n + 1 => JSONValue.array [nestedNull n]

/-- A POST request that carries the JSON object with the one member `body`. -/
def postChirp (body : String) : Request :=
  { Method := "POST", Body := some (JSONValue.object [("body", JSONValue.string body)]) }

/-! ## Lemmas on splitting and joining -/

theorem splitChars_ne_nil (sep : Char) (s : List Char) : strings.splitChars sep s ≠ [] := by
  induction s with
  | nil => simp [strings.splitChars]
  | cons c cs ih =>
    unfold strings.splitChars
    by_cases h : c = sep
    · simp [h]
    · simp only [h, if_false]
      cases hs : strings.splitChars sep cs with
      | nil => simp
      | cons t ts => simp

theorem joinChars_cons_cons (sep : Char) (c : Char) (t : List Char) (ts : List (List Char)) :
    strings.joinChars sep ((c :: t) :: ts) = c :: strings.joinChars sep (t :: ts) := by
  cases ts with
  | nil => simp [strings.joinChars]
  | cons u us => simp [strings.joinChars]

theorem joinChars_nil_cons (sep : Char) (ts : List (List Char)) (h : ts ≠ []) :
    strings.joinChars sep ([] :: ts) = sep :: strings.joinChars sep ts := by
  cases ts with
  | nil => exact absurd rfl h
  | cons u us => simp [strings.joinChars]

/-- Joining the tokens of a split gives the string back. -/
theorem joinChars_splitChars (sep : Char) (s : List Char) :
    strings.joinChars sep (strings.splitChars sep s) = s := by
  induction s with
  | nil => simp [strings.splitChars, strings.joinChars]
  | cons c cs ih =>
    unfold strings.splitChars
    by_cases h : c = sep
    · simp only [h, if_true]
      rw [joinChars_nil_cons sep _ (splitChars_ne_nil sep cs), ih]
    · simp only [h, if_false]
      cases hs : strings.splitChars sep cs with
      | nil => exact absurd hs (splitChars_ne_nil sep cs)
      | cons t ts =>
        simp only []
        rw [joinChars_cons_cons, ← hs, ih]

/-- No token of a split contains the separator. -/
theorem sep_not_mem_splitChars (sep : Char) (s : List Char) :
    ∀ t ∈ strings.splitChars sep s, sep ∉ t := by
  induction s with
  | nil => simp [strings.splitChars]
  | cons c cs ih =>
    unfold strings.splitChars
    by_cases h : c = sep
    · simp only [h, if_true]
      intro t ht
      rcases List.mem_cons.mp ht with rfl | ht
      · simp
      · exact ih t ht
    · simp only [h, if_false]
      cases hs : strings.splitChars sep cs with
      | nil => exact absurd hs (splitChars_ne_nil sep cs)
      | cons u us =>
        simp only []
        rw [hs] at ih
        intro t ht
        rcases List.mem_cons.mp ht with rfl | ht
        · intro hmem
          rcases List.mem_cons.mp hmem with hc | hu
          · exact h hc.symm
          · exact ih u (List.mem_cons_self _ _) hu
        · exact ih t (List.mem_cons_of_mem _ ht)

theorem splitChars_of_not_mem (sep : Char) (t : List Char) (h : sep ∉ t) :
    strings.splitChars sep t = [t] := by
  induction t with
  | nil => simp [strings.splitChars]
  | cons c cs ih =>
    have hc : c ≠ sep := fun e => h (by simp [e])
    have hcs : sep ∉ cs := fun e => h (List.mem_cons_of_mem _ e)
    unfold strings.splitChars
    simp [hc, ih hcs]

theorem splitChars_append_sep (sep : Char) (t rest : List Char) (h : sep ∉ t) :
    strings.splitChars sep (t ++ sep :: rest) = t :: strings.splitChars sep rest := by
  induction t with
  | nil => simp [strings.splitChars]
  | cons c cs ih =>
    have hc : c ≠ sep := fun e => h (by simp [e])
    have hcs : sep ∉ cs := fun e => h (List.mem_cons_of_mem _ e)
    rw [List.cons_append]
    simp [strings.splitChars, hc, ih hcs]

/-- Splitting a join of separator-free tokens gives the tokens back. -/
theorem splitChars_joinChars (sep : Char) (toks : List (List Char)) (hne : toks ≠ [])
    (h : ∀ t ∈ toks, sep ∉ t) : strings.splitChars sep (strings.joinChars sep toks) = toks := by
  induction toks with
  | nil => exact absurd rfl hne
  | cons t ts ih =>
    cases ts with
    | nil =>
      simp only [strings.joinChars]
      exact splitChars_of_not_mem sep t (h t (List.mem_cons_self _ _))
    | cons u us =>
      simp only [strings.joinChars]
      rw [splitChars_append_sep sep t _ (h t (List.mem_cons_self _ _))]
      rw [ih (by simp) (fun x hx => h x (List.mem_cons_of_mem _ hx))]

/-! ## Lemmas on `strings.Split`, `strings.Join` and `strings.ToLower` -/

theorem map_data_map_mk (l : List (List Char)) : (l.map String.mk).map String.data = l := by
  induction l with
  | nil => rfl
  | cons a as ih => simp [ih]

theorem map_mk_map_data (l : List String) : (l.map String.data).map String.mk = l := by
  induction l with
  | nil => rfl
  | cons a as ih => simp [ih]

theorem Split_ne_nil (s : String) (sep : Char) : strings.Split s sep ≠ [] := by
  unfold strings.Split
  intro h
  exact splitChars_ne_nil sep s.data (List.map_eq_nil_iff.mp h)

theorem sep_not_mem_Split (s : String) (sep : Char) :
    ∀ t ∈ strings.Split s sep, sep ∉ t.data := by
  intro t ht
  unfold strings.Split at ht
  rcases List.mem_map.mp ht with ⟨u, hu, rfl⟩
  exact sep_not_mem_splitChars sep s.data u hu

/-- `strings.Join(strings.Split(s, sep), sep)` is `s`. -/
theorem Join_Split (s : String) (sep : Char) : strings.Join (strings.Split s sep) sep = s := by
  unfold strings.Join strings.Split
  rw [map_data_map_mk, joinChars_splitChars]

/-- `strings.Split(strings.Join(elems, sep), sep)` is `elems` when there is at
least one element and none contains the separator. -/
theorem Split_Join (elems : List String) (sep : Char) (hne : elems ≠ [])
    (h : ∀ t ∈ elems, sep ∉ t.data) : strings.Split (strings.Join elems sep) sep = elems := by
  unfold strings.Join strings.Split
  have hne2 : elems.map String.data ≠ [] := fun e => hne (List.map_eq_nil_iff.mp e)
  have h2 : ∀ t ∈ elems.map String.data, sep ∉ t := by
    intro t ht
    rcases List.mem_map.mp ht with ⟨u, hu, rfl⟩
    exact h u hu
  show (strings.splitChars sep (strings.joinChars sep (elems.map String.data))).map String.mk = elems
  rw [splitChars_joinChars sep _ hne2 h2, map_mk_map_data]

/-- The split and the join on the inputs of the package documentation and on
the edge cases of the validator: the empty string has one empty token, and
leading, repeated and trailing separators give empty tokens. -/
theorem Split_Join_samples :
    strings.Split "" ' ' = [""] ∧
    strings.Split "a b c" ' ' = ["a", "b", "c"] ∧
    strings.Split " a  b " ' ' = ["", "a", "", "b", ""] ∧
    strings.Join [] ' ' = "" ∧
    strings.Join ["foo", "bar", "baz"] ' ' = "foo bar baz" ∧
    strings.Join ["", "a", "", "b", ""] ' ' = " a  b " := by
  decide

/-- Lowering keeps the number of runes. -/
theorem ToLower_runeCount (tbl : Char → Char) (s : String) :
    runeCount (strings.ToLower tbl s) = runeCount s := by
  unfold strings.ToLower runeCount strings.Map
  simp only []
  split
  · split
    · rfl
    · simp
  · simp

theorem runeCount_illegal (w : String) (h : w ∈ illegalWords) : 6 ≤ runeCount w := by
  simp only [illegalWords, List.mem_cons, List.mem_singleton, List.mem_nil_iff, or_false] at h
  rcases h with rfl | rfl | rfl <;> decide

/-! ## Lemmas on the inner loop -/

/-- The inner loop leaves `"****"` in the cell when the lowered word is one of
the illegal words, and the word itself otherwise. -/
theorem censorCell_eq (tbl : Char → Char) (word : String) :
    censorCell tbl word = if strings.ToLower tbl word ∈ illegalWords then "****" else word := by
  unfold censorCell illegalWords
  simp only [List.foldl, List.mem_cons, List.mem_singleton, List.mem_nil_iff, or_false]
  by_cases h1 : strings.ToLower tbl word = "kerfuffle"
  · simp [h1]
  · by_cases h2 : strings.ToLower tbl word = "sharbert"
    · simp [h2]
    · by_cases h3 : strings.ToLower tbl word = "fornax"
      · simp [h3]
      · simp [h1, h2, h3]

theorem ToLower_stars (tbl : Char → Char) : strings.ToLower tbl "****" = "****" := rfl

theorem censorCell_stars (tbl : Char → Char) : censorCell tbl "****" = "****" := by
  rw [censorCell_eq, ToLower_stars]
  decide

theorem censorCell_idem (tbl : Char → Char) (word : String) :
    censorCell tbl (censorCell tbl word) = censorCell tbl word := by
  by_cases h : strings.ToLower tbl word ∈ illegalWords
  · have e : censorCell tbl word = "****" := by rw [censorCell_eq, if_pos h]
    rw [e, censorCell_stars]
  · have e : censorCell tbl word = word := by rw [censorCell_eq, if_neg h]
    rw [e, e]

theorem space_not_mem_censorCell (tbl : Char → Char) (word : String) (h : ' ' ∉ word.data) :
    ' ' ∉ (censorCell tbl word).data := by
  rw [censorCell_eq]
  split
  · decide
  · exact h

/-- The tokens of `checkChirp(s)` are the tokens of `s` after the inner loop. -/
theorem Split_checkChirp (tbl : Char → Char) (s : String) :
    strings.Split (checkChirp tbl s) ' ' = (strings.Split s ' ').map (censorCell tbl) := by
  unfold checkChirp
  apply Split_Join
  · intro e
    exact Split_ne_nil s ' ' (List.map_eq_nil_iff.mp e)
  · intro t ht
    rcases List.mem_map.mp ht with ⟨u, hu, rfl⟩
    exact space_not_mem_censorCell tbl u (sep_not_mem_Split s ' ' u hu)

/-! ## Lemmas on lengths -/

theorem len_eq_sum (s : String) : len s = (s.data.map Char.utf8Size).sum := by
  unfold len
  show String.utf8Len s.data = _
  induction s.data with
  | nil => rfl
  | cons c cs ih => rw [String.utf8Len_cons, ih, List.map_cons, List.sum_cons, Nat.add_comm]

theorem runeCount_eq_sum (s : String) : runeCount s = (s.data.map fun _ => 1).sum := by
  unfold runeCount
  induction s.data with
  | nil => rfl
  | cons c cs ih => rw [List.length_cons, ih, List.map_cons, List.sum_cons, Nat.add_comm]

theorem length_le_wsum (w : Char → Nat) (hw : ∀ c, 1 ≤ w c) (l : List Char) :
    l.length ≤ (l.map w).sum := by
  induction l with
  | nil => simp
  | cons c cs ih =>
    have := hw c
    simp only [List.length_cons, List.map_cons, List.sum_cons]
    omega

/-- A string has at least as many bytes as runes. -/
theorem runeCount_le_len (s : String) : runeCount s ≤ len s := by
  rw [len_eq_sum]
  exact length_le_wsum Char.utf8Size (fun c => Char.utf8Size_pos c) s.data

theorem wsum_joinChars (w : Char → Nat) (sep : Char) (toks : List (List Char)) :
    ((strings.joinChars sep toks).map w).sum
      = (toks.map fun t => (t.map w).sum).sum + (toks.length - 1) * w sep := by
  induction toks with
  | nil => simp [strings.joinChars]
  | cons t ts ih =>
    cases ts with
    | nil => simp [strings.joinChars]
    | cons u us =>
      simp only [strings.joinChars, List.map_append, List.sum_append, List.map_cons,
        List.sum_cons, List.length_cons] at ih ⊢
      rw [ih]
      simp only [Nat.add_sub_cancel]
      ring

theorem wsum_Join (w : Char → Nat) (sep : Char) (elems : List String) :
    ((strings.Join elems sep).data.map w).sum
      = (elems.map fun t => (t.data.map w).sum).sum + (elems.length - 1) * w sep := by
  unfold strings.Join
  show ((strings.joinChars sep (elems.map String.data)).map w).sum = _
  rw [wsum_joinChars, List.map_map, List.length_map]
  rfl

/-- The inner loop never makes a cell heavier, and keeps its weight only when
it keeps the cell; the weight is any count that gives every rune at least 1
and the asterisk exactly 1 (bytes and runes both do). -/
theorem wsum_censorCell (w : Char → Nat) (hw : ∀ c, 1 ≤ w c) (hstar : w '*' = 1)
    (tbl : Char → Char) (word : String) :
    ((censorCell tbl word).data.map w).sum ≤ (word.data.map w).sum ∧
    (((censorCell tbl word).data.map w).sum = (word.data.map w).sum ↔
      strings.ToLower tbl word ∉ illegalWords) := by
  rw [censorCell_eq]
  by_cases h : strings.ToLower tbl word ∈ illegalWords
  · have h6 : 6 ≤ runeCount word := by
      rw [← ToLower_runeCount tbl word]
      exact runeCount_illegal _ h
    have hle := length_le_wsum w hw word.data
    unfold runeCount at h6
    have h4 : (("****" : String).data.map w).sum = 4 := by
      show (['*', '*', '*', '*'].map w).sum = 4
      simp [hstar]
    rw [if_pos h, h4]
    constructor
    · omega
    · constructor
      · intro e
        omega
      · intro e
        exact absurd h e
  · rw [if_neg h]
    exact ⟨le_refl _, fun _ => h, fun _ => rfl⟩

theorem sum_map_censorCell (w : Char → Nat) (hw : ∀ c, 1 ≤ w c) (hstar : w '*' = 1)
    (tbl : Char → Char) (toks : List String) :
    ((toks.map (censorCell tbl)).map fun t => (t.data.map w).sum).sum
        ≤ (toks.map fun t => (t.data.map w).sum).sum ∧
    (((toks.map (censorCell tbl)).map fun t => (t.data.map w).sum).sum
        = (toks.map fun t => (t.data.map w).sum).sum ↔
      ∀ t ∈ toks, strings.ToLower tbl t ∉ illegalWords) := by
  induction toks with
  | nil => simp
  | cons t ts ih =>
    obtain ⟨h1, h2⟩ := wsum_censorCell w hw hstar tbl t
    obtain ⟨i1, i2⟩ := ih
    simp only [List.map_cons, List.sum_cons, List.mem_cons, forall_eq_or_imp]
    constructor
    · omega
    · constructor
      · intro e
        exact ⟨h2.mp (by omega), i2.mp (by omega)⟩
      · rintro ⟨a, b⟩
        rw [h2.mpr a, i2.mpr b]

/-- The weight of `checkChirp(s)` against the weight of `s`. -/
theorem wsum_checkChirp (w : Char → Nat) (hw : ∀ c, 1 ≤ w c) (hstar : w '*' = 1)
    (tbl : Char → Char) (s : String) :
    ((checkChirp tbl s).data.map w).sum ≤ (s.data.map w).sum ∧
    (((checkChirp tbl s).data.map w).sum = (s.data.map w).sum ↔
      ∀ t ∈ strings.Split s ' ', strings.ToLower tbl t ∉ illegalWords) := by
  have e1 : ((checkChirp tbl s).data.map w).sum
      = (((strings.Split s ' ').map (censorCell tbl)).map fun t => (t.data.map w).sum).sum
        + ((strings.Split s ' ').length - 1) * w ' ' := by
    unfold checkChirp
    simp only []
    rw [wsum_Join, List.length_map]
  have e2 : (s.data.map w).sum
      = ((strings.Split s ' ').map fun t => (t.data.map w).sum).sum
        + ((strings.Split s ' ').length - 1) * w ' ' := by
    conv_lhs => rw [← Join_Split s ' ']
    rw [wsum_Join]
  obtain ⟨h1, h2⟩ := sum_map_censorCell w hw hstar tbl (strings.Split s ' ')
  rw [e1, e2]
  constructor
  · omega
  · rw [← h2]
    constructor <;> intro e <;> omega

theorem len_checkChirp_le (tbl : Char → Char) (s : String) : len (checkChirp tbl s) ≤ len s := by
  rw [len_eq_sum, len_eq_sum]
  exact (wsum_checkChirp Char.utf8Size (fun c => Char.utf8Size_pos c) (by decide) tbl s).1

/-- A chirp whose tokens are all legal comes back unchanged. -/
theorem checkChirp_of_legal (tbl : Char → Char) (s : String)
    (h : ∀ w ∈ strings.Split s ' ', strings.ToLower tbl w ∉ illegalWords) :
    checkChirp tbl s = s := by
  unfold checkChirp
  simp only []
  have e : (strings.Split s ' ').map (censorCell tbl) = strings.Split s ' ' := by
    conv_rhs => rw [← List.map_id (strings.Split s ' ')]
    apply List.map_congr_left
    intro w hw
    rw [censorCell_eq, if_neg (h w hw)]
    rfl
  rw [e, Join_Split]

theorem checkChirp_idem (tbl : Char → Char) (s : String) :
    checkChirp tbl (checkChirp tbl s) = checkChirp tbl s := by
  have e : checkChirp tbl (checkChirp tbl s)
      = strings.Join ((strings.Split (checkChirp tbl s) ' ').map (censorCell tbl)) ' ' := rfl
  rw [e, Split_checkChirp, List.map_map]
  have e2 : (censorCell tbl ∘ censorCell tbl) = censorCell tbl := by
    funext w
    exact censorCell_idem tbl w
  rw [e2]
  rfl

/-! ## Lemmas on the handlers -/

/-- The two branches of `ValidateChirp` after a successful decode. -/
theorem ValidateChirp_decoded (u : UnicodeData) (r : Request) (cfg : apiConfig) (body : String)
    (hm : r.Method = http.MethodPost) (hd : json.Decode u.fold r.Body = Except.ok ⟨body⟩) :
    ValidateChirp u r cfg =
      if len body > 140 then (respondWithError http.StatusBadRequest "Chirp is too long", cfg)
      else (respondWithJSON http.StatusOK ⟨checkChirp u.lower body⟩, cfg) := by
  unfold ValidateChirp
  simp only [hm, ne_eq, not_true_eq_false, if_false, hd]

theorem ValidateChirp_failed (u : UnicodeData) (r : Request) (cfg : apiConfig)
    (e : json.DecodeError)
    (hm : r.Method = http.MethodPost) (hd : json.Decode u.fold r.Body = Except.error e) :
    ValidateChirp u r cfg =
      (respondWithError http.StatusBadRequest "Something went wrong", cfg) := by
  unfold ValidateChirp
  simp only [hm, ne_eq, not_true_eq_false, if_false, hd]

theorem Decode_postChirp (fold : Char → Char) (body : String) :
    json.Decode fold (postChirp body).Body = Except.ok ⟨body⟩ := by
  simp [postChirp, json.Decode, json.unmarshal, json.decodeMember, json.nesting,
    json.nestingMembers, json.maxNestingDepth]

theorem wrapInt32_succ (x : Int) : wrapInt32 (wrapInt32 x + 1) = wrapInt32 (x + 1) := by
  unfold wrapInt32
  omega

theorem wrapInt32_of_lt (n : Nat) (h : n < 2 ^ 31) : wrapInt32 n = n := by
  unfold wrapInt32
  omega

/-- After `rs.length` hits on a counter that holds the wrap of `h`, the counter
holds the wrap of `h + rs.length`. -/
theorem serveAll_inc (serve : Request → Response) (rs : List Request) (h : Int) :
    (serveAll (middlewareMetricsInc (staticHandler serve)) rs ⟨wrapInt32 h⟩).fileserverHits
      = wrapInt32 (h + rs.length) := by
  induction rs generalizing h with
  | nil => simp [serveAll]
  | cons r rs ih =>
    have step : serveAll (middlewareMetricsInc (staticHandler serve)) (r :: rs) ⟨wrapInt32 h⟩
        = serveAll (middlewareMetricsInc (staticHandler serve)) rs ⟨wrapInt32 (h + 1)⟩ := by
      simp [serveAll, middlewareMetricsInc, staticHandler, atomic.Add, wrapInt32_succ]
    rw [step, ih]
    congr 1
    simp only [List.length_cons]
    push_cast
    ring

theorem foldl_decodeMember_skip (fold : Char → Char)
    (members : List (String × JSONValue)) (st : InputStruct × Option json.DecodeError)
    (h : ∀ m ∈ members, m.1 ≠ "body" ∧ json.foldName fold m.1 ≠ json.foldName fold "body") :
    members.foldl (json.decodeMember fold) st = st := by
  induction members generalizing st with
  | nil => rfl
  | cons m ms ih =>
    obtain ⟨a, b⟩ := h m (List.mem_cons_self _ _)
    have e : json.decodeMember fold st m = st := by
      unfold json.decodeMember
      rw [if_neg (by simp [a, b])]
    rw [List.foldl_cons, e]
    exact ih st (fun x hx => h x (List.mem_cons_of_mem _ hx))

/-- An object within the nesting limit and without a member that selects the
field `Body` decodes to the zero `InputStruct`. -/
theorem Decode_no_body_member (fold : Char → Char) (members : List (String × JSONValue))
    (hdepth : json.nesting (JSONValue.object members) ≤ json.maxNestingDepth)
    (h : ∀ m ∈ members, m.1 ≠ "body" ∧ json.foldName fold m.1 ≠ json.foldName fold "body") :
    json.Decode fold (some (JSONValue.object members)) = Except.ok ⟨""⟩ := by
  unfold json.Decode
  simp only []
  rw [if_neg (by omega)]
  unfold json.unmarshal
  simp only []
  rw [foldl_decodeMember_skip fold members _ h]

/-- A value that nests deeper than the limit is refused whatever it holds. -/
theorem Decode_too_deep (fold : Char → Char) (v : JSONValue)
    (h : json.maxNestingDepth < json.nesting v) :
    json.Decode fold (some v) = Except.error json.DecodeError.exceededMaxDepth := by
  unfold json.Decode
  simp only []
  rw [if_pos h]

theorem nesting_nestedNull (n : Nat) : json.nesting (nestedNull n) = n := by
  induction n with
  | zero => rfl
  | succ n ih =>
    show 1 + max (json.nesting (nestedNull n)) 0 = n + 1
    rw [ih]
    omega

/-- The decoder on one input of each kind: what is not an object or `null` is
refused, `null` and an object are decoded, a `body` member is matched up to
case, takes a string, keeps the field on `null` and refuses any other value,
the last string of several wins and an error is kept once saved. -/
theorem Decode_samples :
    json.Decode sampleData.fold none = Except.error json.DecodeError.malformed ∧
    json.Decode sampleData.fold (some JSONValue.null) = Except.ok ⟨""⟩ ∧
    json.Decode sampleData.fold (some (JSONValue.bool true))
      = Except.error (json.DecodeError.unmarshalType "bool") ∧
    json.Decode sampleData.fold (some (JSONValue.number "1"))
      = Except.error (json.DecodeError.unmarshalType "number") ∧
    json.Decode sampleData.fold (some (JSONValue.string "hi"))
      = Except.error (json.DecodeError.unmarshalType "string") ∧
    json.Decode sampleData.fold (some (JSONValue.array []))
      = Except.error (json.DecodeError.unmarshalType "array") ∧
    json.Decode sampleData.fold (some (JSONValue.object [("body", JSONValue.string "hi")]))
      = Except.ok ⟨"hi"⟩ ∧
    json.Decode sampleData.fold (some (JSONValue.object [("BoDy", JSONValue.string "hi")]))
      = Except.ok ⟨"hi"⟩ ∧
    json.Decode sampleData.fold (some (JSONValue.object [("body", JSONValue.null)]))
      = Except.ok ⟨""⟩ ∧
    json.Decode sampleData.fold (some (JSONValue.object
        [("body", JSONValue.string "hi"), ("body", JSONValue.null)])) = Except.ok ⟨"hi"⟩ ∧
    json.Decode sampleData.fold (some (JSONValue.object
        [("body", JSONValue.string "a"), ("body", JSONValue.string "b")])) = Except.ok ⟨"b"⟩ ∧
    json.Decode sampleData.fold (some (JSONValue.object [("body", JSONValue.bool true)]))
      = Except.error (json.DecodeError.unmarshalType "bool") ∧
    json.Decode sampleData.fold (some (JSONValue.object [("body", JSONValue.number "7")]))
      = Except.error (json.DecodeError.unmarshalType "number") ∧
    json.Decode sampleData.fold (some (JSONValue.object [("body", JSONValue.array [])]))
      = Except.error (json.DecodeError.unmarshalType "array") ∧
    json.Decode sampleData.fold (some (JSONValue.object [("body", JSONValue.object [])]))
      = Except.error (json.DecodeError.unmarshalType "object") ∧
    json.Decode sampleData.fold (some (JSONValue.object
        [("body", JSONValue.number "7"), ("body", JSONValue.string "hi")]))
      = Except.error (json.DecodeError.unmarshalType "number") ∧
    json.Decode sampleData.fold (some (JSONValue.object
        [("body", JSONValue.number "7"), ("body", JSONValue.bool true)]))
      = Except.error (json.DecodeError.unmarshalType "number") ∧
    json.Decode sampleData.fold (some (JSONValue.object
        [("text", JSONValue.number "7"), ("body", JSONValue.string "hi")])) = Except.ok ⟨"hi"⟩ :=
  ⟨rfl, rfl, rfl, rfl, rfl, rfl, rfl, rfl, rfl, rfl, rfl, rfl, rfl, rfl, rfl, rfl, rfl, rfl⟩

/-- An object without a `body` member that nests too deep, its member `a`
holding `null` inside `n` arrays with `n` at least 10000, is refused by the
decoder and answered 400. -/
theorem ValidateChirp_too_deep (u : UnicodeData) (cfg : apiConfig) (n : Nat)
    (h : json.maxNestingDepth ≤ n) :
    json.nesting (JSONValue.object [("a", nestedNull n)]) = n + 1 ∧
    ValidateChirp u ⟨"POST", some (JSONValue.object [("a", nestedNull n)])⟩ cfg
      = (respondWithError http.StatusBadRequest "Something went wrong", cfg) := by
  have hn : json.nesting (JSONValue.object [("a", nestedNull n)]) = n + 1 := by
    show 1 + max (json.nesting (nestedNull n)) 0 = n + 1
    rw [nesting_nestedNull]
    omega
  refine ⟨hn, ?_⟩
  apply ValidateChirp_failed u _ cfg json.DecodeError.exceededMaxDepth rfl
  apply Decode_too_deep
  rw [hn]
  omega

theorem AddHitHandler_get (r : Request) (cfg : apiConfig) (h : r.Method = http.MethodGet) :
    AddHitHandler r cfg
      = ({ StatusCode := 200, ContentType := some "text/plain; charset=utf-8",
           Body := Written.text ("Hits: " ++ toString cfg.fileserverHits) }, cfg) := by
  unfold AddHitHandler
  simp only [h, ne_eq, not_true_eq_false, if_false, atomic.Load]

/-! ## The chirp validator -/

/-- C1: a decoded body of at most 140 bytes none of whose space-separated
tokens lowers to `kerfuffle`, `sharbert` or `fornax` is left as it is by
`checkChirp`, and a POST to `ValidateChirp` answers 200 with that very body as
`cleaned_body`; the body may be empty or have leading, trailing or repeated
spaces. -/
theorem validateChirp_legal_body (u : UnicodeData) (r : Request) (cfg : apiConfig)
    (body : String) (hm : r.Method = http.MethodPost)
    (hd : json.Decode u.fold r.Body = Except.ok ⟨body⟩) (hlen : len body ≤ 140)
    (hlegal : ∀ w ∈ strings.Split body ' ',
      strings.ToLower u.lower w ≠ "kerfuffle" ∧ strings.ToLower u.lower w ≠ "sharbert" ∧
        strings.ToLower u.lower w ≠ "fornax") :
    checkChirp u.lower body = body ∧
    ValidateChirp u r cfg
      = ({ StatusCode := 200, ContentType := some "application/json",
           Body := Written.marshalled { Cleaned_body := body } }, cfg) := by
  have hc : checkChirp u.lower body = body := by
    apply checkChirp_of_legal
    intro w hw
    obtain ⟨a, b, c⟩ := hlegal w hw
    simp [illegalWords, a, b, c]
  refine ⟨hc, ?_⟩
  rw [ValidateChirp_decoded u r cfg body hm hd, if_neg (by omega), hc]
  rfl

/-- C1 at concrete inputs: the empty body and a body with leading, repeated and
trailing spaces come back unchanged with status 200. -/
theorem validateChirp_legal_body_witness :
    (checkChirp sampleData.lower "" = "" ∧
      ValidateChirp sampleData (postChirp "") ⟨3⟩
        = (⟨200, some "application/json", Written.marshalled ⟨""⟩⟩, ⟨3⟩)) ∧
    (checkChirp sampleData.lower "  so  many   spaces " = "  so  many   spaces " ∧
      ValidateChirp sampleData (postChirp "  so  many   spaces ") ⟨3⟩
        = (⟨200, some "application/json", Written.marshalled ⟨"  so  many   spaces "⟩⟩, ⟨3⟩)) :=
  ⟨validateChirp_legal_body sampleData (postChirp "") ⟨3⟩ "" rfl rfl (by decide)
      (by decide),
   validateChirp_legal_body sampleData (postChirp "  so  many   spaces ") ⟨3⟩
      "  so  many   spaces " rfl rfl (by decide) (by decide)⟩

/-- C2: a decoded body longer than 140, whether the length is counted in bytes
or in runes and whatever the body holds, makes a POST to `ValidateChirp` answer
400 with the text `Chirp is too long`; nothing is marshalled, so no success
payload and no censored text leaves the handler. -/
theorem validateChirp_too_long (u : UnicodeData) (r : Request) (cfg : apiConfig)
    (body : String) (hm : r.Method = http.MethodPost)
    (hd : json.Decode u.fold r.Body = Except.ok ⟨body⟩)
    (hlen : 140 < len body ∨ 140 < runeCount body) :
    ValidateChirp u r cfg
      = ({ StatusCode := 400, ContentType := some "text/plain; charset=utf-8",
           Body := Written.text "Chirp is too long" }, cfg) ∧
    ∀ payload, (ValidateChirp u r cfg).1.Body ≠ Written.marshalled payload := by
  have hb : 140 < len body := by
    have := runeCount_le_len body
    omega
  have e := ValidateChirp_decoded u r cfg body hm hd
  rw [if_pos hb] at e
  refine ⟨by rw [e]; rfl, ?_⟩
  intro payload
  rw [e]
  simp [respondWithError]

/-- C2 at a concrete input: 141 letters, and then 141 bytes with the illegal
word `kerfuffle` among them. -/
theorem validateChirp_too_long_witness :
    (ValidateChirp sampleData (postChirp (String.mk (List.replicate 141 'a'))) ⟨3⟩
      = (⟨400, some "text/plain; charset=utf-8", Written.text "Chirp is too long"⟩, ⟨3⟩) ∧
      ∀ payload, (ValidateChirp sampleData
        (postChirp (String.mk (List.replicate 141 'a'))) ⟨3⟩).1.Body
          ≠ Written.marshalled payload) ∧
    (ValidateChirp sampleData
        (postChirp (String.mk ("kerfuffle ".data ++ List.replicate 131 'a'))) ⟨3⟩
      = (⟨400, some "text/plain; charset=utf-8", Written.text "Chirp is too long"⟩, ⟨3⟩) ∧
      ∀ payload, (ValidateChirp sampleData
        (postChirp (String.mk ("kerfuffle ".data ++ List.replicate 131 'a'))) ⟨3⟩).1.Body
          ≠ Written.marshalled payload) :=
  ⟨validateChirp_too_long sampleData (postChirp (String.mk (List.replicate 141 'a'))) ⟨3⟩
      (String.mk (List.replicate 141 'a')) rfl rfl (Or.inl (by decide)),
   validateChirp_too_long sampleData
      (postChirp (String.mk ("kerfuffle ".data ++ List.replicate 131 'a'))) ⟨3⟩
      (String.mk ("kerfuffle ".data ++ List.replicate 131 'a')) rfl rfl (Or.inl (by decide))⟩

/-- C3: `checkChirp(s)` has as many space-separated tokens as `s`, and its
token at each position is `****` when the token of `s` there lowers to exactly
`kerfuffle`, `sharbert` or `fornax`, and that token of `s` itself otherwise.
So `Kerfuffle`, `KERFUFFLE` and `kerfuffle` become `****`, `kerfuffle!` stays,
and the sentence of scenario 1 loses its one illegal word. -/
theorem checkChirp_tokenwise (tbl : Char → Char) (s : String) :
    (strings.Split (checkChirp tbl s) ' ').length = (strings.Split s ' ').length ∧
    (∀ (i : Nat) (w : String), (strings.Split s ' ')[i]? = some w →
      (strings.Split (checkChirp tbl s) ' ')[i]? =
        some (if strings.ToLower tbl w = "kerfuffle" ∨ strings.ToLower tbl w = "sharbert" ∨
                strings.ToLower tbl w = "fornax" then "****" else w)) ∧
    (checkChirp tbl "Kerfuffle" = "****" ∧ checkChirp tbl "KERFUFFLE" = "****" ∧
      checkChirp tbl "kerfuffle" = "****" ∧ checkChirp tbl "ShArBeRt" = "****" ∧
      checkChirp tbl "FORNAX" = "****") ∧
    checkChirp tbl "kerfuffle!" = "kerfuffle!" ∧
    checkChirp tbl "This is a kerfuffle opinion I need to share with the world"
      = "This is a **** opinion I need to share with the world" := by
  refine ⟨?_, ?_, ⟨rfl, rfl, rfl, rfl, rfl⟩, rfl, rfl⟩
  · rw [Split_checkChirp, List.length_map]
  · intro i w hw
    rw [Split_checkChirp, List.getElem?_map, hw, Option.map_some', censorCell_eq]
    simp [illegalWords]

/-- C4: `checkChirp` is idempotent, and when a body of at most 140 bytes has
been validated, a request that carries the `cleaned_body` of the answer is
answered with that same `cleaned_body`. -/
theorem checkChirp_idempotent (u : UnicodeData) (s : String) (r r2 : Request)
    (cfg cfg2 : apiConfig) (hm : r.Method = http.MethodPost)
    (hd : json.Decode u.fold r.Body = Except.ok ⟨s⟩) (hlen : len s ≤ 140)
    (hm2 : r2.Method = http.MethodPost)
    (hd2 : json.Decode u.fold r2.Body = Except.ok ⟨checkChirp u.lower s⟩) :
    checkChirp u.lower (checkChirp u.lower s) = checkChirp u.lower s ∧
    (ValidateChirp u r cfg).1
      = { StatusCode := 200, ContentType := some "application/json",
          Body := Written.marshalled { Cleaned_body := checkChirp u.lower s } } ∧
    (ValidateChirp u r2 cfg2).1 = (ValidateChirp u r cfg).1 := by
  have hl2 : len (checkChirp u.lower s) ≤ 140 := le_trans (len_checkChirp_le u.lower s) hlen
  have e1 := ValidateChirp_decoded u r cfg s hm hd
  have e2 := ValidateChirp_decoded u r2 cfg2 (checkChirp u.lower s) hm2 hd2
  rw [if_neg (by omega)] at e1 e2
  rw [checkChirp_idem] at e2
  refine ⟨checkChirp_idem u.lower s, by rw [e1]; rfl, by rw [e1, e2]⟩

/-- C4 at a concrete input: a chirp with two illegal words, validated and then
validated again. -/
theorem checkChirp_idempotent_witness :
    checkChirp sampleData.lower (checkChirp sampleData.lower "Sharbert met FORNAX  today")
      = checkChirp sampleData.lower "Sharbert met FORNAX  today" ∧
    (ValidateChirp sampleData (postChirp "Sharbert met FORNAX  today") ⟨0⟩).1
      = ⟨200, some "application/json",
          Written.marshalled ⟨checkChirp sampleData.lower "Sharbert met FORNAX  today"⟩⟩ ∧
    (ValidateChirp sampleData (postChirp "**** met ****  today") ⟨1⟩).1
      = (ValidateChirp sampleData (postChirp "Sharbert met FORNAX  today") ⟨0⟩).1 :=
  checkChirp_idempotent sampleData "Sharbert met FORNAX  today"
    (postChirp "Sharbert met FORNAX  today") (postChirp "**** met ****  today") ⟨0⟩ ⟨1⟩
    rfl rfl (by decide) rfl rfl

/-- C5 as stated fails: the JSON object without members, and an object whose
only member is named `text`, decode without error to the empty body, and the
POST is answered 200 with an empty `cleaned_body`, not 400. -/
theorem validateChirp_empty_object :
    json.Decode sampleData.fold (some (JSONValue.object [])) = Except.ok ⟨""⟩ ∧
    ValidateChirp sampleData ⟨"POST", some (JSONValue.object [])⟩ ⟨0⟩
      = (⟨200, some "application/json", Written.marshalled ⟨""⟩⟩, ⟨0⟩) ∧
    (ValidateChirp sampleData ⟨"POST", some (JSONValue.object [])⟩ ⟨0⟩).1
      ≠ ⟨400, some "text/plain; charset=utf-8", Written.text "Something went wrong"⟩ ∧
    ValidateChirp sampleData
        ⟨"POST", some (JSONValue.object [("text", JSONValue.string "kerfuffle")])⟩ ⟨0⟩
      = (⟨200, some "application/json", Written.marshalled ⟨""⟩⟩, ⟨0⟩) := by
  refine ⟨rfl, rfl, ?_, rfl⟩
  decide

/-- C5 amended: a POST whose body is a JSON object that stays within the
nesting limit of the decoder and has no member named `body`, exactly or up to
case folding, decodes without error to the empty body; it is answered 200 with
an empty `cleaned_body` and not 400 `Something went wrong`. -/
theorem validateChirp_no_body_member (u : UnicodeData) (r : Request) (cfg : apiConfig)
    (members : List (String × JSONValue)) (hm : r.Method = http.MethodPost)
    (hb : r.Body = some (JSONValue.object members))
    (hdepth : json.nesting (JSONValue.object members) ≤ json.maxNestingDepth)
    (hno : ∀ m ∈ members,
      m.1 ≠ "body" ∧ json.foldName u.fold m.1 ≠ json.foldName u.fold "body") :
    json.Decode u.fold r.Body = Except.ok ⟨""⟩ ∧
    ValidateChirp u r cfg
      = ({ StatusCode := 200, ContentType := some "application/json",
           Body := Written.marshalled { Cleaned_body := "" } }, cfg) ∧
    (ValidateChirp u r cfg).1
      ≠ { StatusCode := 400, ContentType := some "text/plain; charset=utf-8",
          Body := Written.text "Something went wrong" } := by
  have hd : json.Decode u.fold r.Body = Except.ok ⟨""⟩ := by
    rw [hb]
    exact Decode_no_body_member u.fold members hdepth hno
  have e : ValidateChirp u r cfg
      = ({ StatusCode := 200, ContentType := some "application/json",
           Body := Written.marshalled { Cleaned_body := "" } }, cfg) := by
    rw [ValidateChirp_decoded u r cfg "" hm hd, if_neg (by decide)]
    rfl
  refine ⟨hd, e, ?_⟩
  rw [e]
  show (⟨200, some "application/json", Written.marshalled ⟨""⟩⟩ : Response) ≠ _
  decide

/-- C5 amended at a concrete input: an object with the members `text`, `id`
and `tags`, the last one an array that holds an object, is accepted with an
empty `cleaned_body`. -/
theorem validateChirp_no_body_member_witness :
    json.Decode sampleData.fold
        (some (JSONValue.object [("text", JSONValue.string "hi"), ("id", JSONValue.number "7"),
          ("tags", JSONValue.array [JSONValue.string "a", JSONValue.object []])]))
      = Except.ok ⟨""⟩ ∧
    ValidateChirp sampleData
        ⟨"POST", some (JSONValue.object
          [("text", JSONValue.string "hi"), ("id", JSONValue.number "7"),
            ("tags", JSONValue.array [JSONValue.string "a", JSONValue.object []])])⟩ ⟨2⟩
      = (⟨200, some "application/json", Written.marshalled ⟨""⟩⟩, ⟨2⟩) ∧
    (ValidateChirp sampleData
        ⟨"POST", some (JSONValue.object
          [("text", JSONValue.string "hi"), ("id", JSONValue.number "7"),
            ("tags", JSONValue.array [JSONValue.string "a", JSONValue.object []])])⟩ ⟨2⟩).1
      ≠ ⟨400, some "text/plain; charset=utf-8", Written.text "Something went wrong"⟩ :=
  validateChirp_no_body_member sampleData
    ⟨"POST", some (JSONValue.object
      [("text", JSONValue.string "hi"), ("id", JSONValue.number "7"),
        ("tags", JSONValue.array [JSONValue.string "a", JSONValue.object []])])⟩ ⟨2⟩
    [("text", JSONValue.string "hi"), ("id", JSONValue.number "7"),
      ("tags", JSONValue.array [JSONValue.string "a", JSONValue.object []])]
    rfl rfl (by decide) (by decide)

/-- C6 as stated fails: a body of exactly 140 characters, 139 letters `a` and
one `é`, has 141 bytes and is rejected as too long. -/
theorem validateChirp_140_runes_rejected :
    runeCount (String.mk (List.replicate 139 'a' ++ ['é'])) = 140 ∧
    len (String.mk (List.replicate 139 'a' ++ ['é'])) = 141 ∧
    ValidateChirp sampleData (postChirp (String.mk (List.replicate 139 'a' ++ ['é']))) ⟨0⟩
      = (⟨400, some "text/plain; charset=utf-8", Written.text "Chirp is too long"⟩, ⟨0⟩) := by
  refine ⟨by decide, by decide, rfl⟩

/-- C6 amended: the limit is inclusive and counts bytes: a decoded body of at
most 140 bytes, 140 included, is answered 200 with `checkChirp(body)` as
`cleaned_body`, and never with `Chirp is too long`. -/
theorem validateChirp_limit_inclusive (u : UnicodeData) (r : Request) (cfg : apiConfig)
    (body : String) (hm : r.Method = http.MethodPost)
    (hd : json.Decode u.fold r.Body = Except.ok ⟨body⟩) (hlen : len body ≤ 140) :
    ValidateChirp u r cfg
      = ({ StatusCode := 200, ContentType := some "application/json",
           Body := Written.marshalled { Cleaned_body := checkChirp u.lower body } }, cfg) ∧
    (ValidateChirp u r cfg).1
      ≠ { StatusCode := 400, ContentType := some "text/plain; charset=utf-8",
          Body := Written.text "Chirp is too long" } := by
  have e := ValidateChirp_decoded u r cfg body hm hd
  rw [if_neg (by omega)] at e
  refine ⟨by rw [e]; rfl, ?_⟩
  rw [e]
  simp [respondWithJSON, json.Marshal]

/-- C6 amended at the boundary: a body of exactly 140 bytes is accepted. -/
theorem validateChirp_limit_inclusive_witness :
    len (String.mk (List.replicate 140 'a')) = 140 ∧
    ValidateChirp sampleData (postChirp (String.mk (List.replicate 140 'a'))) ⟨0⟩
      = (⟨200, some "application/json",
          Written.marshalled ⟨String.mk (List.replicate 140 'a')⟩⟩, ⟨0⟩) ∧
    (ValidateChirp sampleData (postChirp (String.mk (List.replicate 140 'a'))) ⟨0⟩).1
      ≠ ⟨400, some "text/plain; charset=utf-8", Written.text "Chirp is too long"⟩ :=
  ⟨by decide,
   validateChirp_limit_inclusive sampleData (postChirp (String.mk (List.replicate 140 'a')))
     ⟨0⟩ (String.mk (List.replicate 140 'a')) rfl rfl (by decide)⟩

/-! ## The hit counter -/

/-- C7 as stated fails: after a reset, 2147483648 hits through
`middlewareMetricsInc` leave the 32-bit counter at -2147483648, and the metrics
handler reports that negative value. -/
theorem hits_wrap_around :
    (serveAll (middlewareMetricsInc (staticHandler fun _ => methodNotAllowed))
        (List.replicate 2147483648 ⟨"GET", none⟩)
        (ResetHitHandler ⟨"POST", none⟩ ⟨5⟩).2).fileserverHits = -2147483648 ∧
    (AddHitHandler ⟨"GET", none⟩
        (serveAll (middlewareMetricsInc (staticHandler fun _ => methodNotAllowed))
          (List.replicate 2147483648 ⟨"GET", none⟩)
          (ResetHitHandler ⟨"POST", none⟩ ⟨5⟩).2)).1.Body
      = Written.text "Hits: -2147483648" := by
  have e : (ResetHitHandler ⟨"POST", none⟩ ⟨5⟩).2 = ⟨wrapInt32 0⟩ := rfl
  have h := serveAll_inc (fun _ => methodNotAllowed) (List.replicate 2147483648 ⟨"GET", none⟩) 0
  rw [List.length_replicate] at h
  have hv : wrapInt32 (0 + ((2147483648 : Nat) : Int)) = -2147483648 := by
    unfold wrapInt32
    norm_num
  rw [hv] at h
  rw [e]
  refine ⟨h, ?_⟩
  rw [AddHitHandler_get _ _ rfl, h]
  rfl

/-- C7 amended: for every `N` below 2^31, from any counter state, a reset by
`ResetHitHandler` or by `AdminResetHandler` followed by `N` requests served one
after another through `middlewareMetricsInc` leaves the counter at exactly `N`,
which is not negative, and `AddHitHandler` then writes `Hits: N`. -/
theorem hits_after_reset (N : Nat) (cfg : apiConfig) (reset get : Request)
    (serve : Request → Response) (rs : List Request) (hN : N < 2 ^ 31)
    (hreset : reset.Method = http.MethodPost) (hget : get.Method = http.MethodGet)
    (hrs : rs.length = N) :
    (ResetHitHandler reset cfg).2.fileserverHits = 0 ∧
    (AdminResetHandler reset cfg).2.fileserverHits = 0 ∧
    (serveAll (middlewareMetricsInc (staticHandler serve)) rs
        (ResetHitHandler reset cfg).2).fileserverHits = (N : Int) ∧
    (serveAll (middlewareMetricsInc (staticHandler serve)) rs
        (AdminResetHandler reset cfg).2).fileserverHits = (N : Int) ∧
    (0 : Int) ≤ (serveAll (middlewareMetricsInc (staticHandler serve)) rs
        (ResetHitHandler reset cfg).2).fileserverHits ∧
    AddHitHandler get
        (serveAll (middlewareMetricsInc (staticHandler serve)) rs (ResetHitHandler reset cfg).2)
      = ({ StatusCode := 200, ContentType := some "text/plain; charset=utf-8",
           Body := Written.text ("Hits: " ++ toString N) },
         serveAll (middlewareMetricsInc (staticHandler serve)) rs
           (ResetHitHandler reset cfg).2) := by
  have e1 : (ResetHitHandler reset cfg).2 = ⟨wrapInt32 0⟩ := by
    simp [ResetHitHandler, hreset, atomic.Store, wrapInt32]
  have e2 : (AdminResetHandler reset cfg).2 = ⟨wrapInt32 0⟩ := by
    simp [AdminResetHandler, hreset, atomic.Store, wrapInt32]
  have h := serveAll_inc serve rs 0
  rw [hrs, Int.zero_add, wrapInt32_of_lt N hN] at h
  have h0 : wrapInt32 0 = 0 := by decide
  rw [e1, e2]
  refine ⟨h0, h0, h, h, ?_, ?_⟩
  · rw [h]
    exact Int.ofNat_nonneg N
  · unfold AddHitHandler
    simp only [hget, ne_eq, not_true_eq_false, if_false, atomic.Load]
    rw [h]
    rfl

/-- C7 amended at a concrete input: a counter that held 41 is reset and three
files are served; the counter reads 3 and the metrics handler writes `Hits: 3`.
With no file served the counter reads 0. -/
theorem hits_after_reset_witness :
    ((ResetHitHandler ⟨"POST", none⟩ ⟨41⟩).2.fileserverHits = 0 ∧
    (AdminResetHandler ⟨"POST", none⟩ ⟨41⟩).2.fileserverHits = 0 ∧
    (serveAll (middlewareMetricsInc (staticHandler fun _ => methodNotAllowed))
        [⟨"GET", none⟩, ⟨"HEAD", none⟩, ⟨"GET", none⟩]
        (ResetHitHandler ⟨"POST", none⟩ ⟨41⟩).2).fileserverHits = ((3 : Nat) : Int) ∧
    (serveAll (middlewareMetricsInc (staticHandler fun _ => methodNotAllowed))
        [⟨"GET", none⟩, ⟨"HEAD", none⟩, ⟨"GET", none⟩]
        (AdminResetHandler ⟨"POST", none⟩ ⟨41⟩).2).fileserverHits = ((3 : Nat) : Int) ∧
    (0 : Int) ≤ (serveAll (middlewareMetricsInc (staticHandler fun _ => methodNotAllowed))
        [⟨"GET", none⟩, ⟨"HEAD", none⟩, ⟨"GET", none⟩]
        (ResetHitHandler ⟨"POST", none⟩ ⟨41⟩).2).fileserverHits ∧
    AddHitHandler ⟨"GET", none⟩
        (serveAll (middlewareMetricsInc (staticHandler fun _ => methodNotAllowed))
          [⟨"GET", none⟩, ⟨"HEAD", none⟩, ⟨"GET", none⟩] (ResetHitHandler ⟨"POST", none⟩ ⟨41⟩).2)
      = (⟨200, some "text/plain; charset=utf-8", Written.text ("Hits: " ++ toString 3)⟩,
         serveAll (middlewareMetricsInc (staticHandler fun _ => methodNotAllowed))
           [⟨"GET", none⟩, ⟨"HEAD", none⟩, ⟨"GET", none⟩]
           (ResetHitHandler ⟨"POST", none⟩ ⟨41⟩).2)) ∧
    (AddHitHandler ⟨"GET", none⟩ (ResetHitHandler ⟨"POST", none⟩ ⟨41⟩).2).1.Body
      = Written.text "Hits: 0" :=
  ⟨hits_after_reset 3 ⟨41⟩ ⟨"POST", none⟩ ⟨"GET", none⟩ (fun _ => methodNotAllowed)
      [⟨"GET", none⟩, ⟨"HEAD", none⟩, ⟨"GET", none⟩] (by decide) rfl rfl rfl,
   rfl⟩

/-! ## Methods -/

/-- C8: a request whose method is not GET gets 405 with nothing written from
`readinessHandler`, `AddHitHandler` and `AddAdminHitHandler`, and a request
whose method is not POST gets the same from `ResetHitHandler`,
`AdminResetHandler` and `ValidateChirp`; the configuration, the hit counter in
it, is left as it was. -/
theorem wrong_method_not_allowed (u : UnicodeData) (cfg : apiConfig) (rg rp : Request)
    (hg : rg.Method ≠ http.MethodGet) (hp : rp.Method ≠ http.MethodPost) :
    methodNotAllowed = { StatusCode := 405, ContentType := none, Body := Written.nothing } ∧
    readinessHandler rg = methodNotAllowed ∧
    AddHitHandler rg cfg = (methodNotAllowed, cfg) ∧
    AddAdminHitHandler rg cfg = (methodNotAllowed, cfg) ∧
    ResetHitHandler rp cfg = (methodNotAllowed, cfg) ∧
    AdminResetHandler rp cfg = (methodNotAllowed, cfg) ∧
    ValidateChirp u rp cfg = (methodNotAllowed, cfg) := by
  refine ⟨rfl, ?_, ?_, ?_, ?_, ?_, ?_⟩
  · unfold readinessHandler
    rw [if_pos hg]
  · unfold AddHitHandler
    rw [if_pos hg]
  · unfold AddAdminHitHandler
    rw [if_pos hg]
  · unfold ResetHitHandler
    rw [if_pos hp]
  · unfold AdminResetHandler
    rw [if_pos hp]
  · unfold ValidateChirp
    rw [if_pos hp]

/-- C8 at concrete inputs: a POST on the GET handlers, and a GET on the POST
handlers; the counter, at 7, is not reset by the GET on either reset path. -/
theorem wrong_method_not_allowed_witness :
    methodNotAllowed = ⟨405, none, Written.nothing⟩ ∧
    readinessHandler ⟨"POST", none⟩ = methodNotAllowed ∧
    AddHitHandler ⟨"POST", none⟩ ⟨7⟩ = (methodNotAllowed, ⟨7⟩) ∧
    AddAdminHitHandler ⟨"POST", none⟩ ⟨7⟩ = (methodNotAllowed, ⟨7⟩) ∧
    ResetHitHandler ⟨"GET", none⟩ ⟨7⟩ = (methodNotAllowed, ⟨7⟩) ∧
    AdminResetHandler ⟨"GET", none⟩ ⟨7⟩ = (methodNotAllowed, ⟨7⟩) ∧
    ValidateChirp sampleData ⟨"GET", none⟩ ⟨7⟩ = (methodNotAllowed, ⟨7⟩) :=
  wrong_method_not_allowed sampleData ⟨7⟩ ⟨"POST", none⟩ ⟨"GET", none⟩ (by decide) (by decide)

/-! ## The unit of the length check -/

/-- C9: the length check of `ValidateChirp` counts bytes: a decoded body is
answered 200 exactly when it has at most 140 bytes and 400 `Chirp is too long`
exactly when it has more; the body of 71 letters `é`, 71 runes and 142 bytes,
is rejected as too long. -/
theorem validateChirp_counts_bytes (u : UnicodeData) (r : Request) (cfg : apiConfig)
    (body : String) (hm : r.Method = http.MethodPost)
    (hd : json.Decode u.fold r.Body = Except.ok ⟨body⟩) :
    ((ValidateChirp u r cfg).1.StatusCode = 200 ↔ len body ≤ 140) ∧
    ((ValidateChirp u r cfg).1
        = { StatusCode := 400, ContentType := some "text/plain; charset=utf-8",
            Body := Written.text "Chirp is too long" } ↔ 140 < len body) ∧
    runeCount (String.mk (List.replicate 71 'é')) = 71 ∧
    len (String.mk (List.replicate 71 'é')) = 142 ∧
    ValidateChirp u (postChirp (String.mk (List.replicate 71 'é'))) cfg
      = ({ StatusCode := 400, ContentType := some "text/plain; charset=utf-8",
           Body := Written.text "Chirp is too long" }, cfg) := by
  have e := ValidateChirp_decoded u r cfg body hm hd
  refine ⟨?_, ?_, by decide, by decide, ?_⟩
  · rw [e]
    by_cases h : len body > 140
    · rw [if_pos h]
      simp only [respondWithError, http.StatusBadRequest]
      constructor
      · intro h2
        exact absurd h2 (by decide)
      · intro h2
        omega
    · rw [if_neg h]
      exact ⟨fun _ => by omega, fun _ => rfl⟩
  · rw [e]
    by_cases h : len body > 140
    · rw [if_pos h]
      exact ⟨fun _ => h, fun _ => rfl⟩
    · rw [if_neg h]
      constructor
      · intro h2
        revert h2
        simp [respondWithJSON, json.Marshal]
      · intro h2
        omega
  · rw [ValidateChirp_decoded u (postChirp (String.mk (List.replicate 71 'é'))) cfg
      (String.mk (List.replicate 71 'é')) rfl (Decode_postChirp u.fold _),
      if_pos (by decide)]
    rfl

/-- C9 at a concrete input: a body of 70 letters `é`, 140 bytes, is accepted. -/
theorem validateChirp_counts_bytes_witness :
    ((ValidateChirp sampleData (postChirp (String.mk (List.replicate 70 'é'))) ⟨0⟩).1.StatusCode
        = 200 ↔ len (String.mk (List.replicate 70 'é')) ≤ 140) ∧
    ((ValidateChirp sampleData (postChirp (String.mk (List.replicate 70 'é'))) ⟨0⟩).1
        = ⟨400, some "text/plain; charset=utf-8", Written.text "Chirp is too long"⟩
      ↔ 140 < len (String.mk (List.replicate 70 'é'))) ∧
    runeCount (String.mk (List.replicate 71 'é')) = 71 ∧
    len (String.mk (List.replicate 71 'é')) = 142 ∧
    ValidateChirp sampleData (postChirp (String.mk (List.replicate 71 'é'))) ⟨0⟩
      = (⟨400, some "text/plain; charset=utf-8", Written.text "Chirp is too long"⟩, ⟨0⟩) :=
  validateChirp_counts_bytes sampleData (postChirp (String.mk (List.replicate 70 'é'))) ⟨0⟩
    (String.mk (List.replicate 70 'é')) rfl rfl

/-! ## Censoring and length -/

/-- C10: `checkChirp(s)` is never longer than `s`, in bytes and in runes, and
has the length of `s` exactly when no token of `s` is censored; so the
`cleaned_body` of an accepted chirp has at most 140 bytes, and a request that
carries it is accepted. -/
theorem checkChirp_not_longer (u : UnicodeData) (s : String) (r : Request) (cfg : apiConfig) :
    len (checkChirp u.lower s) ≤ len s ∧
    (len (checkChirp u.lower s) = len s ↔
      ∀ w ∈ strings.Split s ' ', strings.ToLower u.lower w ∉ illegalWords) ∧
    runeCount (checkChirp u.lower s) ≤ runeCount s ∧
    (runeCount (checkChirp u.lower s) = runeCount s ↔
      ∀ w ∈ strings.Split s ' ', strings.ToLower u.lower w ∉ illegalWords) ∧
    (len s ≤ 140 →
      len (checkChirp u.lower s) ≤ 140 ∧
      (r.Method = http.MethodPost →
        json.Decode u.fold r.Body = Except.ok ⟨checkChirp u.lower s⟩ →
        ValidateChirp u r cfg
          = ({ StatusCode := 200, ContentType := some "application/json",
               Body := Written.marshalled { Cleaned_body := checkChirp u.lower s } }, cfg))) := by
  have hb := wsum_checkChirp Char.utf8Size (fun c => Char.utf8Size_pos c) (by decide) u.lower s
  have hr := wsum_checkChirp (fun _ => 1) (fun _ => le_refl 1) rfl u.lower s
  rw [← len_eq_sum, ← len_eq_sum] at hb
  rw [← runeCount_eq_sum, ← runeCount_eq_sum] at hr
  refine ⟨hb.1, hb.2, hr.1, hr.2, ?_⟩
  intro hlen
  have hl2 : len (checkChirp u.lower s) ≤ 140 := le_trans hb.1 hlen
  refine ⟨hl2, ?_⟩
  intro hm hd
  rw [ValidateChirp_decoded u r cfg _ hm hd, if_neg (by omega), checkChirp_idem]
  rfl

/-- C10 at a concrete input: a chirp of 140 bytes with one illegal word gets
shorter, and its `cleaned_body` is accepted when sent again. -/
theorem checkChirp_not_longer_witness :
    len (String.mk ("kerfuffle ".data ++ List.replicate 130 'a')) = 140 ∧
    len (checkChirp sampleData.lower (String.mk ("kerfuffle ".data ++ List.replicate 130 'a')))
      = 135 ∧
    ValidateChirp sampleData
        (postChirp (String.mk ("**** ".data ++ List.replicate 130 'a'))) ⟨0⟩
      = (⟨200, some "application/json",
          Written.marshalled ⟨checkChirp sampleData.lower
            (String.mk ("kerfuffle ".data ++ List.replicate 130 'a'))⟩⟩, ⟨0⟩) :=
  ⟨by decide, by decide,
   ((checkChirp_not_longer sampleData (String.mk ("kerfuffle ".data ++ List.replicate 130 'a'))
      (postChirp (String.mk ("**** ".data ++ List.replicate 130 'a'))) ⟨0⟩).2.2.2.2
      (by decide)).2 rfl rfl⟩

end Chirpy
